import Mathlib

/-!
Verification of battleship.c (hmgoforth/battleship).

This file is a shallow embedding of the parts of `src/battleship.c` that the
specification talks about: the character/coordinate codec (`charToInt`,
`checkIndex`, `createByte`, `checkMove`), the parity-protected byte link
(`computeParity`, `sendChar`, `sendString`, `readString`), the SRAM board
store (`readSRAM`, `writeSRAM`, `setIndexHigh`, `updateEnemyBoard`,
`updateYourBoard`), ship placement (`setUpBoats`' inner placement logic), and
the main turn loop.

Conventions of the embedding:
- C `unsigned char` values are `Nat` with explicit `% 256` where the C code
  truncates (stores through `char*` registers, assignments to `unsigned char`).
- C `unsigned int` arithmetic is `Nat` with wraparound `% 2^32` made explicit
  through `sub32` (the only place 32-bit wrap matters is `x - 1` at `x = 0`
  and `8 - x` at `x > 8`).
- C `int` parameters that receive `unsigned int` arguments are modelled via
  `toInt32`.
- The SRAM is a function `Nat → Nat`; the hardware address register is an
  8-bit `char*` store, so every access truncates the address `% 256`, and a
  read returns an `unsigned char`, so the value read is truncated `% 256`.
- Console and link I/O are modelled by their data effects: the frames that
  cross the link, the number of read-acknowledge pulses, and the number of
  parity-error messages printed.
-/

/-- 32-bit wraparound subtraction, `(a - b) mod 2^32`, as computed by C
`unsigned int` arithmetic. -/
def sub32 (a b : Nat) : Nat := (a + 4294967296 - b % 4294967296) % 4294967296

/-- Conversion of a 32-bit unsigned value to C `int` (two's complement). -/
def toInt32 (v : Nat) : Int :=
  if v % 4294967296 < 2147483648 then (v % 4294967296 : Int)
  else (v % 4294967296 : Int) - 4294967296

/-- `charToInt` from battleship.c line 66: `c > '@' ? c - '@' : c - '0'`.
The argument is an `unsigned char` (so `c < 256`); the result is an
`unsigned int`, so the subtraction wraps at 2^32 for `c < '0'`.
`'@' = 64`, `'0' = 48`. -/
def charToInt (c : Nat) : Nat := if c > 64 then sub32 c 64 else sub32 c 48

/-- `checkIndex` from battleship.c lines 91-97: returns 0 when
`x >= 0 && x <= BOARD_WIDTH && y >= 0 && y <= BOARD_HEIGHT` (width = height
= 8), and 1 otherwise.  The parameters are C `int`. -/
def checkIndex (x y : Int) : Nat :=
  if 0 ≤ x ∧ x ≤ 8 ∧ 0 ≤ y ∧ y ≤ 8 then 0 else 1

/-- `checkIndex` as invoked from the game loop, where the arguments are the
`unsigned int` globals (converted to `int` at the call). -/
def checkIndexU (x y : Nat) : Nat := checkIndex (toInt32 x) (toInt32 y)

/-- Arithmetic (sign-extending) right shift of an 8-bit two's-complement
value, restricted back to 8 bits.  This is what `character >> k` computes in
C for a (signed) `char` after integer promotion, viewed through the low 8
bits that the subsequent assignment back to `char` keeps. -/
def ashr8 (c k : Nat) : Nat :=
  if c < 128 then c >>> k else (c >>> k) ||| (256 - 2 ^ (8 - k))

/-- `computeParity` from battleship.c lines 104-110: the iterative XOR fold
`c ^= c >> 4; c ^= c >> 2; c ^= c >> 1; c &= 1` on a `char` argument.  Each
compound assignment truncates back to 8 bits. -/
def computeParity (c : Nat) : Nat :=
  let c1 := (c ^^^ ashr8 c 4) % 256
  let c2 := (c1 ^^^ ashr8 c1 2) % 256
  let c3 := (c2 ^^^ ashr8 c2 1) % 256
  c3 &&& 1

/-- `createByte` from battleship.c lines 117-120:
`unsigned char c = 1; return c << (BOARD_WIDTH - x);` truncated to
`unsigned char`.  `BOARD_WIDTH - x` is 8 - x; every call site in the program
passes `0 ≤ x ≤ 8` (for `x > 8` the C shift would be undefined behaviour, and
no theorem below evaluates this definition there). -/
def createByte (x : Nat) : Nat := (1 <<< (8 - x)) % 256

/-- `translateInputBuffer` from battleship.c lines 269-272: the first buffer
character becomes the row (`theirShotY`), the second the column
(`theirShotX`).  Returns the pair (column, row) = (theirShotX, theirShotY). -/
def translateInputBuffer (b0 b1 : Nat) : Nat × Nat :=
  (charToInt b1, charToInt b0)

/-- `sendChar` from battleship.c lines 126-147, reduced to its data effect:
the 8-bit value written to the `data_out` register.  The code computes
`parity = computeParity(c)`, then `sent = c; sent <<= 1; sent = parity +
sent` in the `unsigned char` global `sent`, so the frame that crosses the
link is `(computeParity c + 2*c) mod 256` — the high bit of `c` is dropped
by the 8-bit truncation. -/
def sendChar (c : Nat) : Nat := (computeParity c + (c <<< 1) % 256) % 256

/-- Global constant `bufLen = 10` from battleship.c line 39. -/
def bufLen : Nat := 10

/-- The sequence of frames emitted by the `for` loop body of `sendString`
(battleship.c lines 187-197): each buffer byte is sent in order; the first
zero byte is sent and then the loop breaks. -/
def sendStringGo : List Nat → List Nat
  | [] => []
  | c :: cs => if c = 0 then [sendChar 0] else sendChar c :: sendStringGo cs

/-- `sendString` from battleship.c lines 187-197: sends the bytes of the
output buffer one frame per byte, stopping after the terminator; the loop
index runs over at most `bufLen` buffer cells. -/
def sendString (buf : List Nat) : List Nat := sendStringGo (buf.take bufLen)

/-- Outcome of one `readString` call (battleship.c lines 155-179), reduced
to its data effects: `ok buf acks rest` is the return value 0 with the bytes
stored to the input buffer (terminator included), the number of
read-acknowledge pulses on the `char_read` line, and the frames left
unconsumed on the link; `err buf acks msgs rest` is the return value 1 after
a parity mismatch, with the bytes stored before the failure, the
acknowledge-pulse count, the number of parity-error messages printed, and
the frames left unconsumed; `starved buf acks` is the busy-wait loop
spinning forever because no further frame arrives. -/
inductive ReadResult where
  | ok (buf : List Nat) (acks : Nat) (rest : List Nat)
  | err (buf : List Nat) (acks : Nat) (msgs : Nat) (rest : List Nat)
  | starved (buf : List Nat) (acks : Nat)
  deriving DecidableEq

/-- The `while (received != '\0')` loop of `readString`: for each arriving
frame the low bit is taken as the received parity, the value is shifted
right to recover the data bits, the parity is recomputed and compared; on a
match the byte is stored and the read line pulsed, on a mismatch a message
is printed, the read line pulsed, and 1 returned. -/
def readStringGo : List Nat → List Nat → Nat → ReadResult
  | [], buf, acks => .starved buf acks
  | f :: fs, buf, acks =>
    if computeParity (f >>> 1) = f &&& 1 then
      if f >>> 1 = 0 then .ok (buf ++ [0]) (acks + 1) fs
      else readStringGo fs (buf ++ [f >>> 1]) (acks + 1)
    else .err buf (acks + 1) 1 fs

/-- `readString` from battleship.c lines 155-179, as a function of the
frames arriving on the link. -/
def readString (frames : List Nat) : ReadResult := readStringGo frames [] 0

/-- Board base addresses from battleship.c lines 44-46: the shots board at
0..7, the hits board at 8..15, the ships board at 16..23. -/
def shotsBase : Nat := 0

/-- Base address of the hits board (battleship.c line 45). -/
def hitsBase : Nat := 8

/-- Base address of the own-ships board (battleship.c line 46). -/
def boardBase : Nat := 16

/-- The SRAM contents: a byte per address. -/
def Mem : Type := Nat → Nat

/-- `readSRAM` from battleship.c lines 217-225.  The address register is an
8-bit `char*` store, so only the low 8 bits of the address reach the SRAM,
and the value read back through the `data` register is an `unsigned char`. -/
def readSRAM (m : Mem) (addr : Nat) : Nat := m (addr % 256) % 256

/-- `writeSRAM` from battleship.c lines 232-238: stores the low 8 bits of
the byte at the low 8 bits of the address. -/
def writeSRAM (m : Mem) (addr byte : Nat) : Mem :=
  fun a => if a = addr % 256 then byte % 256 else m a

/-- `checkMove` from battleship.c lines 245-250: reads the row byte at
`boardAddr + (y - 1)` (32-bit unsigned arithmetic) and tests the bit
`BOARD_WIDTH - x = 8 - x` from the top.  It performs no bounds checking of
its own. -/
def checkMove (m : Mem) (x y boardAddr : Nat) : Nat :=
  ((readSRAM m ((boardAddr + sub32 y 1) % 4294967296)) >>> (sub32 8 x)) &&& 1

/-- The move-validity computation on the firing path, battleship.c lines
566-567: `notValidMove = checkMove(yourShotX, yourShotY, shotsBase) ||
checkIndex(yourShotX, yourShotY)`.  C evaluates the left operand of `||`
first, so `checkMove` runs unconditionally on the raw translated input;
`checkIndex` runs only if `checkMove` returned 0.  The second component
records the argument pair that reaches `checkMove`. -/
def fireValidation (m : Mem) (x y : Nat) : Nat × (Nat × Nat) :=
  ((if checkMove m x y shotsBase ≠ 0 then 1 else checkIndexU x y), (x, y))

/-- `setIndexHigh` from battleship.c lines 403-408: OR the single-bit mask
for column `x` into the row byte at `base + y - 1`.  The parameters are
C `int`; every call site passes `base = boardBase = 16`, so the address
arithmetic never goes negative and plain `Nat` arithmetic is faithful. -/
def setIndexHigh (m : Mem) (x y base : Nat) : Mem :=
  writeSRAM m (base + y - 1) (createByte x ||| readSRAM m (base + y - 1))

/-- The cells a length-`i` ship would occupy, in the order the placement
loop of `setUpBoats` visits them (`j` from `i - 1` down to 0, battleship.c
lines 441-448): horizontal extends right from the coordinate, vertical
extends down. -/
def placementCells (x y : Nat) (horiz : Bool) (i : Nat) : List (Nat × Nat) :=
  ((List.range i).reverse).map (fun j => if horiz then (x + j, y) else (x, y + j))

/-- One cell check of the placement loop (battleship.c lines 443-447):
`check = checkMove(cell, boardBase) || checkIndex(cell)`, `checkMove`
evaluated first. -/
def cellCheck (m : Mem) (c : Nat × Nat) : Nat :=
  if checkMove m c.1 c.2 boardBase ≠ 0 then 1 else checkIndexU c.1 c.2

/-- One placement attempt of `setUpBoats` (battleship.c lines 441-463): if
any cell fails its check the request is rejected (the code re-prompts) and
the board is unchanged; otherwise every cell is passed to `setIndexHigh`. -/
def placeShip (m : Mem) (x y : Nat) (horiz : Bool) (i : Nat) : Bool × Mem :=
  if (placementCells x y horiz i).all (fun c => cellCheck m c == 0) then
    (true,
      (placementCells x y horiz i).foldl
        (fun mm c => setIndexHigh mm c.1 c.2 boardBase) m)
  else (false, m)

/-- `updateEnemyBoard` from battleship.c lines 284-292: OR the single-bit
mask for column `x` into the row byte at `(y - 1) + board` (32-bit unsigned
arithmetic on the global shot coordinates), for `board` the shots or hits
base address. -/
def updateEnemyBoard (m : Mem) (x y board : Nat) : Mem :=
  writeSRAM m ((sub32 y 1 + board) % 4294967296)
    (readSRAM m ((sub32 y 1 + board) % 4294967296) ||| createByte x)

/-- `updateYourBoard` from battleship.c lines 300-316: read the ships-board
row byte at `boardBase + (y - 1)`, test the bit for column `x`; on a hit
clear that bit (`~createByte(x) & byte` — `byte` is below 256, so only the
low 8 bits `255 ^^^ createByte x` of the promoted complement matter) and
report a hit; on a miss write nothing.  The returned flag is the `hit`
variable that decides the `enemyHits` increment and the '1'/'0' reply. -/
def updateYourBoard (m : Mem) (x y : Nat) : Mem × Bool :=
  if (readSRAM m ((boardBase + sub32 y 1) % 4294967296) >>> (sub32 8 x)) &&& 1 = 1 then
    (writeSRAM m ((boardBase + sub32 y 1) % 4294967296)
      ((255 ^^^ createByte x) &&& readSRAM m ((boardBase + sub32 y 1) % 4294967296)),
     true)
  else (m, false)

/-- Ship lengths (battleship.c lines 40-41). -/
def SMALL_SHIP_LENGTH : Nat := 3

/-- Length of the largest ship (battleship.c line 41). -/
def LARGE_SHIP_LENGTH : Nat := 4

/-- `totalHits` as the `for` loop of battleship.c lines 543-547 computes it:
the sum of the ship lengths from `SMALL_SHIP_LENGTH` to
`LARGE_SHIP_LENGTH`. -/
def totalHits : Nat :=
  (List.range' SMALL_SHIP_LENGTH (LARGE_SHIP_LENGTH + 1 - SMALL_SHIP_LENGTH)).foldl
    (fun acc i => acc + i) 0

/-- The mutable state of the turn loop: the SRAM, the two hit counters
(globals `yourHits` and `enemyHits`, both starting at 0), the four shot
coordinate globals, and the `yourTurn` flag. -/
structure GameState where
  mem : Mem
  yourHits : Nat
  enemyHits : Nat
  yourShotX : Nat
  yourShotY : Nat
  theirShotX : Nat
  theirShotY : Nat
  yourTurn : Bool

/-- The external inputs consumed by one iteration of the turn loop.  On the
player's own turn the loop uses the validated shot coordinate
(`x`, `y` — `translateOutputBuffer` of the entered string) and the first two
input-buffer bytes after the reply `readString` (`r0`, `r1`; on a parity
error these are whatever the buffer holds).  On the opponent's turn it uses
the first two input-buffer bytes of the received coordinate string
(`s0`, `s1`). -/
structure TurnInput where
  x : Nat
  y : Nat
  r0 : Nat
  r1 : Nat
  s0 : Nat
  s1 : Nat

/-- One iteration of the `while (yourHits != totalHits && enemyHits !=
totalHits)` loop (battleship.c lines 560-595).  If the loop guard fails no
iteration runs and the state is unchanged.  On the player's turn the shots
board is updated unconditionally, then `translateInputBuffer` stores the
reply bytes into `theirShotY`/`theirShotX`, and if `charToInt(inputBuffer[0])`
is nonzero the hits board is updated and `yourHits` incremented.  On the
opponent's turn the received coordinate is translated and `updateYourBoard`
resolves the shot against the ships board, incrementing `enemyHits` on a
hit. -/
def stepGame (g : GameState) (inp : TurnInput) : GameState :=
  if g.yourHits = totalHits ∨ g.enemyHits = totalHits then g
  else if g.yourTurn then
    { mem :=
        if charToInt inp.r0 ≠ 0 then
          updateEnemyBoard (updateEnemyBoard g.mem inp.x inp.y shotsBase)
            inp.x inp.y hitsBase
        else updateEnemyBoard g.mem inp.x inp.y shotsBase
      yourHits := g.yourHits + (if charToInt inp.r0 ≠ 0 then 1 else 0)
      enemyHits := g.enemyHits
      yourShotX := inp.x
      yourShotY := inp.y
      theirShotX := charToInt inp.r1
      theirShotY := charToInt inp.r0
      yourTurn := false }
  else
    { mem := (updateYourBoard g.mem (charToInt inp.s1) (charToInt inp.s0)).1
      yourHits := g.yourHits
      enemyHits := g.enemyHits +
        (if (updateYourBoard g.mem (charToInt inp.s1) (charToInt inp.s0)).2
         then 1 else 0)
      yourShotX := g.yourShotX
      yourShotY := g.yourShotY
      theirShotX := charToInt inp.s1
      theirShotY := charToInt inp.s0
      yourTurn := true }

/-- The whole turn loop, as a fold of `stepGame` over the inputs arriving
while it runs. -/
def runGame (g : GameState) (inps : List TurnInput) : GameState :=
  inps.foldl stepGame g

/-- The closing banner (battleship.c lines 597-601): the win message is
printed exactly when `yourHits == totalHits`, the loss message otherwise. -/
def reportsWin (g : GameState) : Bool := g.yourHits == totalHits

/-- The invariant of claim C7, over the observable bytes of the store: every
bit set in a hits-board row (addresses 8..15) is also set in the shots-board
row of the same index (addresses 0..7). -/
def hitsSubShots (m : Mem) : Prop :=
  ∀ i, i < 8 → ∀ k, (readSRAM m (hitsBase + i)).testBit k = true →
    (readSRAM m (shotsBase + i)).testBit k = true

/-- An input whose coordinates all lie in 1..8: the fired shot and the
decoded received shot. -/
abbrev inRangeShot (inp : TurnInput) : Prop :=
  1 ≤ inp.x ∧ inp.x ≤ 8 ∧ 1 ≤ inp.y ∧ inp.y ≤ 8 ∧
  1 ≤ charToInt inp.s0 ∧ charToInt inp.s0 ≤ 8 ∧
  1 ≤ charToInt inp.s1 ∧ charToInt inp.s1 ≤ 8

/-- The state at the start of the firing loop: boards erased, counters 0,
player 1 to move. -/
def matchStart : GameState where
  mem := fun _ => 0
  yourHits := 0
  enemyHits := 0
  yourShotX := 0
  yourShotY := 0
  theirShotX := 0
  theirShotY := 0
  yourTurn := true

/-- An own-turn input: the player fires at column 5, row 8 (typed "85"),
the opponent replies "1" (byte 49, a hit).  Its received-shot characters
are '1','1' so the same input also serves as an in-range opponent turn
(a shot at column 1, row 1). -/
def fireShot : TurnInput where
  x := 5
  y := 8
  r0 := 49
  r1 := 0
  s0 := 49
  s1 := 49

/-- An opponent-turn input carrying the received string "05": the first
character '0' (48) decodes to row 0, the second '5' (53) to column 5. -/
def rowZeroShot : TurnInput where
  x := 1
  y := 1
  r0 := 0
  r1 := 0
  s0 := 48
  s1 := 53

/-- A match in which the player lands seven confirmed hits: thirteen turns
alternate between the firing input (reply "1" each time) and an in-range
opponent miss at column 1, row 1. -/
def winTrace : List TurnInput :=
  [fireShot, fireShot, fireShot, fireShot, fireShot, fireShot, fireShot,
   fireShot, fireShot, fireShot, fireShot, fireShot, fireShot]

/-- C2 (code_bug evidence): `checkIndex` accepts the coordinate (0, 0)
(it returns 0, in-bounds) even though 0 lies outside 1..8, contradicting
the claim that `checkIndex` returns 0 iff both components lie in 1..8.
The user can produce this input by typing "00" at a fire prompt
(`charToInt '0' = 0`).  For coordinates genuinely in 1..8 the check does
accept, and for components above 8 or negative it does reject. -/
theorem checkIndex_accepts_zero :
    checkIndex 0 0 = 0 ∧ ¬ (1 ≤ (0 : Int)) ∧
    charToInt 48 = 0 ∧
    checkIndex 1 1 = 0 ∧ checkIndex 8 8 = 0 ∧
    checkIndex 9 1 = 1 ∧ checkIndex 1 9 = 1 ∧ checkIndex (-1) 1 = 1 := by
  refine ⟨by decide, by decide, by decide, by decide, by decide, by decide,
    by decide, by decide⟩

set_option maxRecDepth 4096 in
/-- C5: for every byte `b` and every bit position `i < 8`, flipping bit `i`
of `b` changes `computeParity`: the XOR-fold parity bit detects every
single-bit corruption. -/
theorem computeParity_detects_single_bit :
    ∀ b : Nat, b < 256 → ∀ i : Nat, i < 8 →
      computeParity (b ^^^ (1 <<< i)) ≠ computeParity b := by
  decide

/-- Witness for C5 at `b = 200`, `i = 3`. -/
theorem computeParity_detects_single_bit_witness :
    computeParity (200 ^^^ (1 <<< 3)) ≠ computeParity 200 :=
  computeParity_detects_single_bit 200 (by decide) 3 (by decide)

/-- C9 (counterexample): the code decodes the string "C6" (bytes 67, 54) to
column 6, row 3 — `inputBuffer[0] = 'C'` becomes the row and
`inputBuffer[1] = '6'` the column — not to column 3, row 6 as the claim
states. -/
theorem translateInputBuffer_C6 :
    translateInputBuffer 67 54 = (6, 3) ∧
    ((6, 3) : Nat × Nat) ≠ (3, 6) := by
  refine ⟨by decide, by decide⟩

/-- C9 (amended): each serialized coordinate is two ASCII characters,
row-letter then column-digit, decoded by `charToInt` with 'A' and '1'
mapping to 1 up to 'H' and '8' mapping to 8; the first character is the row
and the second the column, so "C6" denotes row 3, column 6. -/
theorem charToInt_coordinate_mapping :
    (∀ k : Nat, k < 8 → charToInt (65 + k) = k + 1) ∧
    (∀ k : Nat, k < 8 → charToInt (49 + k) = k + 1) ∧
    (∀ b0 b1 : Nat, translateInputBuffer b0 b1 = (charToInt b1, charToInt b0)) ∧
    translateInputBuffer 67 54 = (6, 3) := by
  refine ⟨by decide, by decide, fun b0 b1 => rfl, by decide⟩

/-- Witness for C9 amended: 'C' (= 65 + 2) decodes to 3 and '6' (= 49 + 5)
decodes to 6. -/
theorem charToInt_coordinate_mapping_witness :
    charToInt (65 + 2) = 2 + 1 ∧ charToInt (49 + 5) = 5 + 1 :=
  ⟨charToInt_coordinate_mapping.1 2 (by decide),
   charToInt_coordinate_mapping.2.1 5 (by decide)⟩

/-- The parity bit is a single bit. -/
theorem computeParity_le_one (c : Nat) : computeParity c ≤ 1 := by
  unfold computeParity
  simp only [Nat.and_one_is_mod]
  omega

/-- Frame round-trip for a 7-bit payload byte: the receiver shifts the frame
right to recover the byte, and the low bit of the frame is the parity the
sender appended. -/
theorem frame_roundtrip (c : Nat) (h : c < 128) :
    (sendChar c) >>> 1 = c ∧ (sendChar c) &&& 1 = computeParity c := by
  have hp := computeParity_le_one c
  unfold sendChar
  rw [Nat.shiftLeft_eq, Nat.shiftRight_eq_div_pow, Nat.and_one_is_mod]
  norm_num
  omega

/-- The receive loop inverts the send loop on a payload of nonzero 7-bit
bytes, for any accumulator state. -/
theorem readStringGo_sendStringGo (p : List Nat) (hp : ∀ c ∈ p, 0 < c ∧ c < 128) :
    ∀ buf acks, readStringGo (sendStringGo (p ++ [0])) buf acks =
      .ok (buf ++ (p ++ [0])) (acks + (p.length + 1)) [] := by
  induction p with
  | nil =>
    intro buf acks
    simp only [List.nil_append, List.length_nil]
    rfl
  | cons c cs ih =>
    intro buf acks
    have hc := hp c (by simp)
    have hfr := frame_roundtrip c hc.2
    have hc0 : ¬ c = 0 := by omega
    have hst : sendStringGo ((c :: cs) ++ [0]) = sendChar c :: sendStringGo (cs ++ [0]) := by
      simp [sendStringGo, hc0]
    rw [hst]
    have hread : readStringGo (sendChar c :: sendStringGo (cs ++ [0])) buf acks =
        readStringGo (sendStringGo (cs ++ [0])) (buf ++ [c]) (acks + 1) := by
      rw [readStringGo, hfr.1, hfr.2, if_pos rfl, if_neg hc0]
    rw [hread, ih (fun d hd => hp d (by simp [hd])) (buf ++ [c]) (acks + 1)]
    have hlist : (buf ++ [c]) ++ (cs ++ [0]) = buf ++ ((c :: cs) ++ [0]) := by
      simp
    have hnat : acks + 1 + (cs.length + 1) = acks + ((c :: cs).length + 1) := by
      simp only [List.length_cons]
      omega
    rw [hlist, hnat]

/-- C1 (amended): for every payload of at most 9 nonzero bytes that are all
below 128, sending the null-terminated string byte-by-byte through
`sendString` over a fault-free channel and receiving it with `readString`
yields the identical string including the terminator, with one
read-acknowledge pulse per byte, no parity error, and no unconsumed frames.
(The original claim, quantified over arbitrary byte values, fails: the frame
is 8 bits, not 9, so the high bit of a byte ≥ 128 is lost in transmission
and flagged as a parity error — see the counterexample.) -/
theorem sendString_readString_roundtrip (p : List Nat)
    (hlen : p.length ≤ 9) (hp : ∀ c ∈ p, 0 < c ∧ c < 128) :
    readString (sendString (p ++ [0])) = .ok (p ++ [0]) (p.length + 1) [] := by
  unfold readString sendString
  rw [List.take_of_length_le (by simp [bufLen]; omega)]
  simpa using readStringGo_sendStringGo p hp [] 0

/-- Witness for C1 amended: the two-byte payload "C6" (bytes 67, 54)
round-trips intact with three acknowledge pulses. -/
theorem sendString_readString_roundtrip_witness :
    readString (sendString [67, 54, 0]) = .ok [67, 54, 0] 3 [] :=
  sendString_readString_roundtrip [67, 54] (by decide) (by decide)

/-- C1 (counterexample): the single-byte payload 128 fits the buffer, but
its frame is `(2*128 + parity) mod 256 = 1` — the 8-bit `unsigned char`
frame drops the high data bit — so `readString` recovers byte 0, the parity
check fails, and reception aborts with an error instead of returning the
identical string. -/
theorem sendString_highbit_byte_fails :
    readString (sendString [128, 0]) = ReadResult.err [] 1 1 [0] ∧
    ReadResult.err [] 1 1 [0] ≠ ReadResult.ok [128, 0] 2 [] := by
  exact ⟨by decide, by decide⟩

/-- C4: if the frames arriving during one `readString` call are some good
nonzero-byte frames followed by a frame whose recomputed parity differs from
its parity bit, then `readString` prints exactly one explanatory message,
pulses the read-acknowledge line for the bad frame as well (one pulse per
frame seen), stores only the bytes received before the failure, abandons the
rest of the in-flight traffic unconsumed (so the link stays usable for
subsequent calls), and returns the error (return value 1, the `err` outcome)
to the caller without transmitting anything. -/
theorem readString_parity_error (gs : List Nat) (bad : Nat) (rest : List Nat)
    (hg : ∀ f ∈ gs, computeParity (f >>> 1) = f &&& 1 ∧ f >>> 1 ≠ 0)
    (hb : computeParity (bad >>> 1) ≠ bad &&& 1) :
    readString (gs ++ bad :: rest) =
      .err (gs.map (fun f => f >>> 1)) (gs.length + 1) 1 rest := by
  suffices h : ∀ buf acks, readStringGo (gs ++ bad :: rest) buf acks =
      .err (buf ++ gs.map (fun f => f >>> 1)) (acks + (gs.length + 1)) 1 rest by
    simpa using h [] 0
  induction gs with
  | nil =>
    intro buf acks
    simp only [List.nil_append, List.map_nil, List.append_nil, List.length_nil]
    unfold readStringGo
    rw [if_neg hb]
  | cons g gs ih =>
    intro buf acks
    have hgf := hg g (by simp)
    have hread : readStringGo (g :: (gs ++ bad :: rest)) buf acks =
        readStringGo (gs ++ bad :: rest) (buf ++ [g >>> 1]) (acks + 1) := by
      rw [readStringGo, if_pos hgf.1, if_neg hgf.2]
    rw [List.cons_append, hread,
      ih (fun d hd => hg d (by simp [hd])) (buf ++ [g >>> 1]) (acks + 1)]
    have hlist : (buf ++ [g >>> 1]) ++ gs.map (fun f => f >>> 1) =
        buf ++ (g :: gs).map (fun f => f >>> 1) := by
      simp
    have hnat : acks + 1 + (gs.length + 1) = acks + ((g :: gs).length + 1) := by
      simp only [List.length_cons]
      omega
    rw [hlist, hnat]

/-- Witness for C4: one good frame (99, carrying byte 49 = '1') followed by
the bad frame 1 (parity bit 1, data 0, recomputed parity 0) and a leftover
frame 7: the call stores [49], pulses the acknowledge line twice, prints one
message, returns the error, and leaves [7] on the link. -/
theorem readString_parity_error_witness :
    readString [99, 1, 7] = ReadResult.err [49] 2 1 [7] :=
  readString_parity_error [99] 1 [7] (by decide) (by decide)

/-- C3 (code_bug evidence): when the user types "Z5" at the fire prompt the
translated coordinate is column 5, row 26.  The firing-path validity
expression evaluates `checkMove` first, so `checkMove` is called with row
26, which `checkIndex` has not validated (it rejects it only afterwards):
the row byte is read at `shotsBase + (26 - 1) = 25`, outside the 0..7 row
range of the shots board (it lands past the hits board rows), refuting the
claim that every `checkMove` call sees coordinates already validated to lie
in 1..8. -/
theorem checkMove_called_before_checkIndex :
    charToInt 90 = 26 ∧ charToInt 53 = 5 ∧
    fireValidation (fun _ => 0) 5 26 = (1, (5, 26)) ∧
    checkIndexU 5 26 = 1 ∧ ¬ (26 ≤ 8) ∧
    (shotsBase + sub32 26 1) % 4294967296 = 25 ∧ ¬ (25 ≤ 7) ∧
    checkMove (fun _ => 0) 5 26 shotsBase = 0 := by
  refine ⟨by decide, by decide, by decide, by decide, by decide, by decide,
    by decide, by decide⟩

/-- C6 (code_bug evidence): on an empty board, requesting the length-4 ship
horizontally at row 5, column 0 (the user types "50" then 'h';
`charToInt '0' = 0`) is accepted, although its cell (0, 5) lies outside the
8×8 grid — `checkIndex` accepts column 0.  The accepted ship marks only
columns 1..3 of row 5 (row byte 224 at address boardBase + 4 = 20):
`createByte 0` is `(1 << 8)` truncated to 0, so the fourth cell marks
nothing, contradicting the claim that off-grid placements are rejected and
accepted placements mark all their cells. -/
theorem placeShip_accepts_column_zero :
    charToInt 53 = 5 ∧ charToInt 48 = 0 ∧
    (placeShip (fun _ => 0) 0 5 true 4).1 = true ∧
    ¬ (1 ≤ 0) ∧
    readSRAM (placeShip (fun _ => 0) 0 5 true 4).2 20 = 224 ∧
    createByte 0 = 0 := by
  refine ⟨by decide, by decide, by decide, by decide, by decide, by decide⟩

/-- `sub32` agrees with truncated subtraction below 2^32. -/
theorem sub32_small (a b : Nat) (hb : b ≤ a) (ha : a < 4294967296) :
    sub32 a b = a - b := by
  unfold sub32
  omega

/-- The tested bit of `checkMove`-style expressions, as `testBit`. -/
theorem shift_and_one (n s : Nat) : ((n >>> s) &&& 1 = 1) ↔ n.testBit s = true := by
  rw [Nat.and_one_is_mod, Nat.shiftRight_eq_div_pow, Nat.testBit_to_div_mod]
  simp

/-- For a column in 1..8 the mask is the single bit `8 - x`. -/
theorem createByte_eq (x : Nat) (h1 : 1 ≤ x) (h8 : x ≤ 8) :
    createByte x = 2 ^ (8 - x) := by
  unfold createByte
  rw [Nat.shiftLeft_eq, one_mul]
  apply Nat.mod_eq_of_lt
  calc 2 ^ (8 - x) ≤ 2 ^ 7 := Nat.pow_le_pow_right (by norm_num) (by omega)
    _ < 256 := by norm_num

/-- A byte has no bits at position 8 or above. -/
theorem testBit_byte_high (r k : Nat) (hr : r < 256) (hk : 8 ≤ k) :
    r.testBit k = false := by
  apply Nat.testBit_eq_false_of_lt
  calc r < 256 := hr
    _ = 2 ^ 8 := by norm_num
    _ ≤ 2 ^ k := Nat.pow_le_pow_right (by norm_num) hk

/-- Reading back the cell just written returns the stored byte. -/
theorem readSRAM_writeSRAM_same (m : Mem) (a v : Nat) :
    readSRAM (writeSRAM m a v) a = v % 256 := by
  unfold readSRAM writeSRAM
  simp

/-- Reading any other cell is unaffected by a write. -/
theorem readSRAM_writeSRAM_other (m : Mem) (a v b : Nat) (h : b % 256 ≠ a % 256) :
    readSRAM (writeSRAM m a v) b = readSRAM m b := by
  unfold readSRAM writeSRAM
  rw [if_neg h]

/-- A read value is a byte. -/
theorem readSRAM_lt (m : Mem) (a : Nat) : readSRAM m a < 256 :=
  Nat.mod_lt _ (by norm_num)

/-- C10: for columns and rows in 1..8 and a board base leaving the 8 row
bytes inside the address space, `setIndexHigh` (and `updateEnemyBoard`,
which performs the identical write) changes only the row byte at
`base + (y - 1)`, by OR-ing in the single-bit column mask: the target bit
becomes set, every other bit of that byte keeps its value, and every other
store cell is untouched.  `updateYourBoard` touches only the ships-board
byte at `boardBase + (y - 1)`: on a miss (column bit clear) the store is
returned unchanged, and on a hit only the column bit is cleared, every
other bit of the byte and every other cell keeping their values. -/
theorem board_update_frame (m : Mem) (x y base : Nat)
    (hx1 : 1 ≤ x) (hx8 : x ≤ 8) (hy1 : 1 ≤ y) (hy8 : y ≤ 8)
    (hbase : base + 8 ≤ 256) :
    (∀ a, a < 256 → a ≠ base + y - 1 → setIndexHigh m x y base a = m a) ∧
    (∀ k, k ≠ 8 - x →
      (readSRAM (setIndexHigh m x y base) (base + y - 1)).testBit k =
        (readSRAM m (base + y - 1)).testBit k) ∧
    ((readSRAM (setIndexHigh m x y base) (base + y - 1)).testBit (8 - x) = true) ∧
    (updateEnemyBoard m x y base = setIndexHigh m x y base) ∧
    (∀ a, a < 256 → a ≠ boardBase + y - 1 → (updateYourBoard m x y).1 a = m a) ∧
    ((readSRAM m (boardBase + y - 1)).testBit (8 - x) = false →
      (updateYourBoard m x y).1 = m) ∧
    ((readSRAM m (boardBase + y - 1)).testBit (8 - x) = true →
      (∀ k, k ≠ 8 - x →
        (readSRAM ((updateYourBoard m x y).1) (boardBase + y - 1)).testBit k =
          (readSRAM m (boardBase + y - 1)).testBit k) ∧
      (readSRAM ((updateYourBoard m x y).1) (boardBase + y - 1)).testBit (8 - x)
        = false) := by
  have haddr : base + y - 1 < 256 := by omega
  have hsuby : sub32 y 1 = y - 1 := sub32_small y 1 (by omega) (by omega)
  have hsubx : sub32 8 x = 8 - x := sub32_small 8 x hx8 (by omega)
  have hmask : createByte x = 2 ^ (8 - x) := createByte_eq x hx1 hx8
  have hbit : 8 - x < 8 := by omega
  have h256 : (256 : Nat) = 2 ^ 8 := by norm_num
  have h255 : (255 : Nat) = 2 ^ 8 - 1 := by norm_num
  have hr := readSRAM_lt m (base + y - 1)
  have hbaddr : boardBase + y - 1 < 256 := by unfold boardBase; omega
  have hbb : (boardBase + sub32 y 1) % 4294967296 = boardBase + y - 1 := by
    rw [hsuby]; unfold boardBase; omega
  have hrb := readSRAM_lt m (boardBase + y - 1)
  refine ⟨?_, ?_, ?_, ?_, ?_, ?_, ?_⟩
  · intro a ha hne
    unfold setIndexHigh writeSRAM
    rw [Nat.mod_eq_of_lt haddr, if_neg hne]
  · intro k hk
    unfold setIndexHigh
    rw [readSRAM_writeSRAM_same, h256, Nat.testBit_mod_two_pow, Nat.testBit_lor,
      hmask, Nat.testBit_two_pow_of_ne (fun h => hk h.symm)]
    by_cases hk8 : k < 8
    · simp [hk8]
    · simp [hk8, testBit_byte_high _ k hr (by omega)]
  · unfold setIndexHigh
    rw [readSRAM_writeSRAM_same, h256, Nat.testBit_mod_two_pow, Nat.testBit_lor,
      hmask, Nat.testBit_two_pow_self]
    simp [hbit]
  · unfold updateEnemyBoard setIndexHigh
    have ha2 : (sub32 y 1 + base) % 4294967296 = base + y - 1 := by
      rw [hsuby]; omega
    rw [ha2, Nat.lor_comm]
  · intro a ha hne
    unfold updateYourBoard
    by_cases hhit : (readSRAM m ((boardBase + sub32 y 1) % 4294967296) >>>
        (sub32 8 x)) &&& 1 = 1
    · rw [if_pos hhit]
      unfold writeSRAM
      simp only [hbb]
      rw [Nat.mod_eq_of_lt hbaddr, if_neg hne]
    · rw [if_neg hhit]
  · intro hmiss
    unfold updateYourBoard
    rw [if_neg]
    rw [hbb, hsubx, shift_and_one]
    simp [hmiss]
  · intro hhit
    unfold updateYourBoard
    rw [if_pos (by rw [hbb, hsubx, shift_and_one]; exact hhit)]
    simp only [hbb]
    constructor
    · intro k hk
      rw [readSRAM_writeSRAM_same, h256, Nat.testBit_mod_two_pow,
        Nat.testBit_land, Nat.testBit_xor, h255, Nat.testBit_two_pow_sub_one,
        hmask, Nat.testBit_two_pow_of_ne (fun h => hk h.symm)]
      by_cases hk8 : k < 8
      · simp [hk8]
      · simp [hk8, testBit_byte_high _ k hrb (by omega)]
    · rw [readSRAM_writeSRAM_same, h256, Nat.testBit_mod_two_pow,
        Nat.testBit_land, Nat.testBit_xor, h255, Nat.testBit_two_pow_sub_one,
        hmask, Nat.testBit_two_pow_self]
      simp [hbit]

/-- Witness for C10 at `x = 3`, `y = 2`, `base = 0`, on the store holding 1
everywhere: the written row byte at address 1 has bit 5 set, address 7 is
untouched, and a miss leaves the ships board unchanged. -/
theorem board_update_frame_witness :
    (readSRAM (setIndexHigh (fun _ => 1) 3 2 0) (0 + 2 - 1)).testBit (8 - 3)
      = true ∧
    setIndexHigh (fun _ => 1) 3 2 0 7 = (fun _ => (1 : Nat)) 7 ∧
    (updateYourBoard (fun _ => 1) 3 2).1 = (fun _ => (1 : Nat)) := by
  have h := board_update_frame (fun _ => 1) 3 2 0 (by decide) (by decide)
    (by decide) (by decide) (by decide)
  exact ⟨h.2.2.1, h.1 7 (by decide) (by decide),
    h.2.2.2.2.2.1 (by decide)⟩

/-- The configured total is 3 + 4 = 7 ship cells. -/
theorem totalHits_eq : totalHits = 7 := by decide

/-- Bits of an OR-masked byte: the old bits plus the single mask bit. -/
theorem testBit_or_mask (r x k : Nat) (hr : r < 256) (hx1 : 1 ≤ x) (hx8 : x ≤ 8) :
    ((r ||| createByte x) % 256).testBit k =
      (r.testBit k || decide (k = 8 - x)) := by
  have h256 : (256 : Nat) = 2 ^ 8 := by norm_num
  rw [h256, Nat.testBit_mod_two_pow, Nat.testBit_lor, createByte_eq x hx1 hx8]
  by_cases hk : k = 8 - x
  · subst hk
    simp [Nat.testBit_two_pow_self, (by omega : 8 - x < 8)]
  · rw [Nat.testBit_two_pow_of_ne (fun h => hk h.symm)]
    by_cases hk8 : k < 8
    · simp [hk8, hk]
    · simp [hk8, hk, testBit_byte_high r k hr (by omega)]

/-- OR-ing a mask into a byte preserves its set bits. -/
theorem testBit_or_mask_mono (r x k : Nat) (hr : r < 256) (hx1 : 1 ≤ x)
    (hx8 : x ≤ 8) (h : r.testBit k = true) :
    ((r ||| createByte x) % 256).testBit k = true := by
  rw [testBit_or_mask r x k hr hx1 hx8, h, Bool.true_or]

/-- OR-ing a mask into a byte sets the mask bit. -/
theorem testBit_or_mask_self (r x : Nat) (hr : r < 256) (hx1 : 1 ≤ x)
    (hx8 : x ≤ 8) : ((r ||| createByte x) % 256).testBit (8 - x) = true := by
  rw [testBit_or_mask r x (8 - x) hr hx1 hx8]
  simp

/-- Bits of an AND-masked byte are among the bits of the byte. -/
theorem testBit_land_byte (a r k : Nat) :
    ((a &&& r) % 256).testBit k = true → r.testBit k = true := by
  rw [(by norm_num : (256 : Nat) = 2 ^ 8), Nat.testBit_mod_two_pow,
    Nat.testBit_land]
  intro h
  simp only [Bool.and_eq_true, decide_eq_true_eq] at h
  exact h.2.2

/-- An aliased read after a write: the stored byte comes back, and the
pre-write contents of the aliased cells agreed. -/
theorem readSRAM_writeSRAM_alias (m : Mem) (a v b : Nat) (h : b % 256 = a % 256) :
    readSRAM (writeSRAM m a v) b = v % 256 ∧ readSRAM m b = readSRAM m a := by
  unfold readSRAM writeSRAM
  rw [h, if_pos rfl]
  exact ⟨by omega, rfl⟩

/-- Reading `updateEnemyBoard`: only the row byte at `board + (y - 1)`
changes, to its old value OR-ed with the column mask. -/
theorem readSRAM_updateEnemyBoard (m : Mem) (x y board b : Nat)
    (hy1 : 1 ≤ y) (hy8 : y ≤ 8) (hb : board + 8 ≤ 256) (hbb : b < 256) :
    readSRAM (updateEnemyBoard m x y board) b =
      if b = board + y - 1 then
        (readSRAM m (board + y - 1) ||| createByte x) % 256
      else readSRAM m b := by
  have ha : (sub32 y 1 + board) % 4294967296 = board + y - 1 := by
    rw [sub32_small y 1 (by omega) (by omega)]
    omega
  unfold updateEnemyBoard
  rw [ha]
  by_cases hbe : b = board + y - 1
  · subst hbe
    rw [if_pos rfl, readSRAM_writeSRAM_same]
  · rw [if_neg hbe, readSRAM_writeSRAM_other]
    rw [Nat.mod_eq_of_lt hbb, Nat.mod_eq_of_lt (by omega)]
    exact hbe

/-- Reading a cell other than the target row of `updateYourBoard` is
unaffected, whether or not the shot hit. -/
theorem readSRAM_updateYourBoard_other (m : Mem) (x y b : Nat)
    (hy1 : 1 ≤ y) (hy8 : y ≤ 8) (hbb : b < 256) (hne : b ≠ boardBase + y - 1) :
    readSRAM (updateYourBoard m x y).1 b = readSRAM m b := by
  have ha : (boardBase + sub32 y 1) % 4294967296 = boardBase + y - 1 := by
    rw [sub32_small y 1 (by omega) (by omega)]
    simp only [boardBase]
    omega
  unfold updateYourBoard
  by_cases hhit : (readSRAM m ((boardBase + sub32 y 1) % 4294967296) >>>
      sub32 8 x) &&& 1 = 1
  · rw [if_pos hhit]
    apply readSRAM_writeSRAM_other
    rw [ha, Nat.mod_eq_of_lt hbb,
      Nat.mod_eq_of_lt (by simp only [boardBase]; omega)]
    exact hne
  · rw [if_neg hhit]

/-- Every bit set after `updateYourBoard` was set before: the update only
ever clears a bit. -/
theorem readSRAM_updateYourBoard_le (m : Mem) (x y b k : Nat) :
    (readSRAM (updateYourBoard m x y).1 b).testBit k = true →
    (readSRAM m b).testBit k = true := by
  unfold updateYourBoard
  by_cases hhit : (readSRAM m ((boardBase + sub32 y 1) % 4294967296) >>>
      sub32 8 x) &&& 1 = 1
  · rw [if_pos hhit]
    intro h
    by_cases hb : b % 256 = ((boardBase + sub32 y 1) % 4294967296) % 256
    · have hal := readSRAM_writeSRAM_alias m ((boardBase + sub32 y 1) % 4294967296)
        ((255 ^^^ createByte x) &&&
          readSRAM m ((boardBase + sub32 y 1) % 4294967296)) b hb
      rw [hal.1] at h
      rw [hal.2]
      exact testBit_land_byte _ _ _ h
    · rwa [readSRAM_writeSRAM_other m _ _ b hb] at h
  · rw [if_neg hhit]
    exact id

/-- Effects of the own-turn board writes (shots row, then optionally the
hits row) on the three invariant properties. -/
theorem updateEnemyBoard_props (m : Mem) (x y : Nat)
    (hx1 : 1 ≤ x) (hx8 : x ≤ 8) (hy1 : 1 ≤ y) (hy8 : y ≤ 8) :
    (hitsSubShots m → hitsSubShots (updateEnemyBoard m x y shotsBase)) ∧
    (hitsSubShots m →
      hitsSubShots
        (updateEnemyBoard (updateEnemyBoard m x y shotsBase) x y hitsBase)) ∧
    (∀ i, i < 16 → ∀ k, (readSRAM m i).testBit k = true →
      (readSRAM (updateEnemyBoard m x y shotsBase) i).testBit k = true) ∧
    (∀ i, i < 16 → ∀ k, (readSRAM m i).testBit k = true →
      (readSRAM
        (updateEnemyBoard (updateEnemyBoard m x y shotsBase) x y hitsBase)
          i).testBit k = true) ∧
    (∀ i, 16 ≤ i → i < 24 →
      readSRAM (updateEnemyBoard m x y shotsBase) i = readSRAM m i) ∧
    (∀ i, 16 ≤ i → i < 24 →
      readSRAM (updateEnemyBoard (updateEnemyBoard m x y shotsBase) x y hitsBase)
        i = readSRAM m i) := by
  have hs0 : shotsBase = 0 := rfl
  have hh8 : hitsBase = 8 := rfl
  have hmono : ∀ i, i < 16 → ∀ k, (readSRAM m i).testBit k = true →
      (readSRAM (updateEnemyBoard m x y shotsBase) i).testBit k = true := by
    intro i hi k hk
    rw [readSRAM_updateEnemyBoard m x y shotsBase i hy1 hy8 (by rw [hs0]; omega)
      (by omega)]
    by_cases hie : i = shotsBase + y - 1
    · rw [if_pos hie, ← hie]
      exact testBit_or_mask_mono _ x k (readSRAM_lt m i) hx1 hx8 hk
    · rwa [if_neg hie]
  have hmono2 : ∀ i, i < 16 → ∀ k,
      (readSRAM (updateEnemyBoard m x y shotsBase) i).testBit k = true →
      (readSRAM
        (updateEnemyBoard (updateEnemyBoard m x y shotsBase) x y hitsBase)
          i).testBit k = true := by
    intro i hi k hk
    rw [readSRAM_updateEnemyBoard _ x y hitsBase i hy1 hy8 (by rw [hh8]; omega)
      (by omega)]
    by_cases hie : i = hitsBase + y - 1
    · rw [if_pos hie, ← hie]
      exact testBit_or_mask_mono _ x k (readSRAM_lt _ i) hx1 hx8 hk
    · rwa [if_neg hie]
  have hships1 : ∀ i, 16 ≤ i → i < 24 →
      readSRAM (updateEnemyBoard m x y shotsBase) i = readSRAM m i := by
    intro i hi16 hi24
    rw [readSRAM_updateEnemyBoard m x y shotsBase i hy1 hy8 (by rw [hs0]; omega)
      (by omega), if_neg (by rw [hs0]; omega)]
  have hships2 : ∀ i, 16 ≤ i → i < 24 →
      readSRAM (updateEnemyBoard (updateEnemyBoard m x y shotsBase) x y hitsBase)
        i = readSRAM m i := by
    intro i hi16 hi24
    rw [readSRAM_updateEnemyBoard _ x y hitsBase i hy1 hy8 (by rw [hh8]; omega)
      (by omega), if_neg (by rw [hh8]; omega)]
    exact hships1 i hi16 hi24
  refine ⟨?_, ?_, hmono, fun i hi k hk => hmono2 i hi k (hmono i hi k hk),
    hships1, hships2⟩
  · intro hs i hi8 k hk
    rw [readSRAM_updateEnemyBoard m x y shotsBase (hitsBase + i) hy1 hy8
      (by rw [hs0]; omega) (by rw [hh8]; omega),
      if_neg (by rw [hs0, hh8]; omega)] at hk
    exact hmono (shotsBase + i) (by rw [hs0]; omega) k (hs i hi8 k hk)
  · intro hs i hi8 k hk
    rw [readSRAM_updateEnemyBoard _ x y hitsBase (hitsBase + i) hy1 hy8
      (by rw [hh8]; omega) (by rw [hh8]; omega)] at hk
    by_cases hie : hitsBase + i = hitsBase + y - 1
    · rw [if_pos hie] at hk
      rw [readSRAM_updateEnemyBoard m x y shotsBase (hitsBase + y - 1) hy1 hy8
        (by rw [hs0]; omega) (by rw [hh8]; omega),
        if_neg (by rw [hs0, hh8]; omega)] at hk
      rw [testBit_or_mask _ x k (readSRAM_lt m _) hx1 hx8] at hk
      have hiy : i = y - 1 := by
        rw [hh8] at hie
        omega
      rw [readSRAM_updateEnemyBoard _ x y hitsBase (shotsBase + i) hy1 hy8
        (by rw [hh8]; omega) (by rw [hs0]; omega),
        if_neg (by rw [hs0, hh8]; omega),
        readSRAM_updateEnemyBoard m x y shotsBase (shotsBase + i) hy1 hy8
        (by rw [hs0]; omega) (by rw [hs0]; omega),
        if_pos (by rw [hs0]; omega)]
      rcases Bool.or_eq_true_iff.mp hk with hold | hsel
      · apply testBit_or_mask_mono _ x k (readSRAM_lt m _) hx1 hx8
        have hold2 : (readSRAM m (hitsBase + i)).testBit k = true := by
          rwa [hie]
        have hshot := hs i hi8 k hold2
        rwa [show shotsBase + y - 1 = shotsBase + i by rw [hs0]; omega]
      · rw [of_decide_eq_true hsel]
        exact testBit_or_mask_self _ x (readSRAM_lt m _) hx1 hx8
    · rw [if_neg hie] at hk
      rw [readSRAM_updateEnemyBoard m x y shotsBase (hitsBase + i) hy1 hy8
        (by rw [hs0]; omega) (by rw [hh8]; omega),
        if_neg (by rw [hs0, hh8]; omega)] at hk
      exact hmono2 (shotsBase + i) (by rw [hs0]; omega) k
        (hmono (shotsBase + i) (by rw [hs0]; omega) k (hs i hi8 k hk))

/-- Effects of the opponent-turn board write on the three invariant
properties: the shots and hits rows are untouched, and the ships rows only
ever lose bits. -/
theorem updateYourBoard_props (m : Mem) (x y : Nat)
    (hy1 : 1 ≤ y) (hy8 : y ≤ 8) :
    (hitsSubShots m → hitsSubShots (updateYourBoard m x y).1) ∧
    (∀ i, i < 16 → readSRAM (updateYourBoard m x y).1 i = readSRAM m i) ∧
    (∀ i, ∀ k, (readSRAM (updateYourBoard m x y).1 i).testBit k = true →
      (readSRAM m i).testBit k = true) := by
  have hb16 : boardBase = 16 := rfl
  have hlow : ∀ i, i < 16 → readSRAM (updateYourBoard m x y).1 i = readSRAM m i := by
    intro i hi
    exact readSRAM_updateYourBoard_other m x y i hy1 hy8 (by omega)
      (by rw [hb16]; omega)
  refine ⟨?_, hlow, fun i k => readSRAM_updateYourBoard_le m x y i k⟩
  intro hs i hi8 k hk
  rw [hlow (hitsBase + i) (by rw [show hitsBase = 8 from rfl]; omega)] at hk
  rw [hlow (shotsBase + i) (by rw [show shotsBase = 0 from rfl]; omega)]
  exact hs i hi8 k hk

/-- One in-range turn preserves the board invariants: the subset relation
between hits and shots, monotone growth of the shots/hits rows, and
monotone shrinking of the ships rows. -/
theorem stepGame_mono (g : GameState) (inp : TurnInput)
    (hx1 : 1 ≤ inp.x) (hx8 : inp.x ≤ 8) (hy1 : 1 ≤ inp.y) (hy8 : inp.y ≤ 8)
    (hs0a : 1 ≤ charToInt inp.s0) (hs0b : charToInt inp.s0 ≤ 8)
    (_hs1a : 1 ≤ charToInt inp.s1) (_hs1b : charToInt inp.s1 ≤ 8) :
    (hitsSubShots g.mem → hitsSubShots (stepGame g inp).mem) ∧
    (∀ i, i < 16 → ∀ k, (readSRAM g.mem i).testBit k = true →
      (readSRAM (stepGame g inp).mem i).testBit k = true) ∧
    (∀ i, 16 ≤ i → i < 24 → ∀ k,
      (readSRAM (stepGame g inp).mem i).testBit k = true →
      (readSRAM g.mem i).testBit k = true) := by
  unfold stepGame
  by_cases hg : g.yourHits = totalHits ∨ g.enemyHits = totalHits
  · rw [if_pos hg]
    exact ⟨fun h => h, fun i _ k h => h, fun i _ _ k h => h⟩
  rw [if_neg hg]
  by_cases ht : g.yourTurn
  · rw [if_pos ht]
    have hp := updateEnemyBoard_props g.mem inp.x inp.y hx1 hx8 hy1 hy8
    by_cases hflag : charToInt inp.r0 ≠ 0
    · rw [if_pos hflag]
      exact ⟨hp.2.1, hp.2.2.2.1, fun i hi16 hi24 k hk => by
        rwa [hp.2.2.2.2.2 i hi16 hi24] at hk⟩
    · rw [if_neg hflag]
      exact ⟨hp.1, hp.2.2.1, fun i hi16 hi24 k hk => by
        rwa [hp.2.2.2.2.1 i hi16 hi24] at hk⟩
  · rw [if_neg ht]
    have hp := updateYourBoard_props g.mem (charToInt inp.s1) (charToInt inp.s0)
      hs0a hs0b
    exact ⟨hp.1, fun i hi k hk => by rwa [hp.2.1 i hi], fun i _ _ k =>
      hp.2.2 i k⟩

/-- C7 (amended): provided every exchanged coordinate decodes to 1..8 —
the fired shot and the two received-shot characters — the invariant
`hitsConfirmed ⊆ shotsFired` holds at every state the turn loop reaches
from a state satisfying it (in particular from the all-empty boards the
match starts with), and across every single turn the shots/hits rows only
ever gain bits while only ships rows ever lose one.  (The original claim,
over all reachable states, fails because a received row character '0'
decodes to row 0 and makes `updateYourBoard` clear a bit of the hits board —
see the counterexample.) -/
theorem board_invariants_hold (g0 : GameState) (inps : List TurnInput)
    (h0 : hitsSubShots g0.mem)
    (hin : ∀ inp ∈ inps, inRangeShot inp) :
    hitsSubShots (runGame g0 inps).mem ∧
    (∀ g : GameState, ∀ inp : TurnInput, inRangeShot inp →
      (hitsSubShots g.mem → hitsSubShots (stepGame g inp).mem) ∧
      (∀ i, i < 16 → ∀ k, (readSRAM g.mem i).testBit k = true →
        (readSRAM (stepGame g inp).mem i).testBit k = true) ∧
      (∀ i, 16 ≤ i → i < 24 → ∀ k,
        (readSRAM (stepGame g inp).mem i).testBit k = true →
        (readSRAM g.mem i).testBit k = true)) := by
  have hstep : ∀ g : GameState, ∀ inp : TurnInput, inRangeShot inp →
      (hitsSubShots g.mem → hitsSubShots (stepGame g inp).mem) ∧
      (∀ i, i < 16 → ∀ k, (readSRAM g.mem i).testBit k = true →
        (readSRAM (stepGame g inp).mem i).testBit k = true) ∧
      (∀ i, 16 ≤ i → i < 24 → ∀ k,
        (readSRAM (stepGame g inp).mem i).testBit k = true →
        (readSRAM g.mem i).testBit k = true) := by
    intro g inp hinp
    obtain ⟨h1, h2, h3, h4, h5, h6, h7, h8⟩ := hinp
    exact stepGame_mono g inp h1 h2 h3 h4 h5 h6 h7 h8
  refine ⟨?_, hstep⟩
  have haux : ∀ (is : List TurnInput) (g : GameState), hitsSubShots g.mem →
      (∀ inp ∈ is, inRangeShot inp) → hitsSubShots (runGame g is).mem := by
    intro is
    induction is with
    | nil => exact fun g hg _ => hg
    | cons i is ih =>
      intro g hg hin2
      exact ih (stepGame g i) ((hstep g i (hin2 i (by simp))).1 hg)
        (fun j hj => hin2 j (by simp [hj]))
  exact haux inps g0 h0 hin

/-- C7 (counterexample): from the empty boards, one confirmed hit at
column 5, row 8 sets bit 3 of the hits-board row byte at address
`hitsBase + 7 = 15`; the opponent's next shot "05" decodes to row 0, so
`updateYourBoard` reads address `boardBase + 0 - 1 = 15` — the hits board,
not the ships board — finds the bit set, and clears it: a `hitsConfirmed`
bit is cleared, refuting the claim that bits of `shotsFired`/`hitsConfirmed`
are never cleared and that only ships-board bits are ever cleared.  The
firing move itself passes the game's own validation. -/
theorem hitsConfirmed_bit_cleared :
    (readSRAM (stepGame matchStart fireShot).mem (hitsBase + 7)).testBit 3
      = true ∧
    (readSRAM (stepGame (stepGame matchStart fireShot) rowZeroShot).mem
      (hitsBase + 7)).testBit 3 = false ∧
    hitsBase + 7 < boardBase ∧
    fireValidation matchStart.mem 5 8 = (0, (5, 8)) ∧
    charToInt 56 = 8 ∧ charToInt 53 = 5 ∧ charToInt 48 = 0 := by
  refine ⟨by decide, by decide, by decide, by decide, by decide, by decide,
    by decide⟩

/-- Witness for C7 amended: applying the theorem to the concrete state
after the first confirmed hit and one more in-range turn, the shots-board
bit set by the hit (address 7, bit 3) is still set afterwards. -/
theorem board_invariants_hold_witness :
    (readSRAM (stepGame (stepGame matchStart fireShot) fireShot).mem 7).testBit 3
      = true :=
  ((board_invariants_hold matchStart []
      (fun i hi k hk => by simp [matchStart, readSRAM] at hk)
      (fun inp h => absurd h (List.not_mem_nil inp))).2
    (stepGame matchStart fireShot) fireShot (by decide)).2.1
    7 (by decide) 3 (by decide)

/-- One turn keeps both counters at or below `totalHits`: the loop body only
runs when both counters differ from the total, and it increments exactly
one counter by at most one. -/
theorem stepGame_counter_le (g : GameState) (inp : TurnInput)
    (hy : g.yourHits ≤ totalHits) (he : g.enemyHits ≤ totalHits) :
    (stepGame g inp).yourHits ≤ totalHits ∧
    (stepGame g inp).enemyHits ≤ totalHits := by
  unfold stepGame
  by_cases hg : g.yourHits = totalHits ∨ g.enemyHits = totalHits
  · rw [if_pos hg]
    exact ⟨hy, he⟩
  · rw [if_neg hg]
    push_neg at hg
    by_cases ht : g.yourTurn
    · rw [if_pos ht]
      refine ⟨?_, he⟩
      show g.yourHits + (if charToInt inp.r0 ≠ 0 then 1 else 0) ≤ totalHits
      have h1 := hg.1
      split <;> omega
    · rw [if_neg ht]
      refine ⟨hy, ?_⟩
      show g.enemyHits +
        (if (updateYourBoard g.mem (charToInt inp.s1) (charToInt inp.s0)).2
         then 1 else 0) ≤ totalHits
      have h2 := hg.2
      split <;> omega

/-- C8: starting from the zero-initialized counters, after any sequence of
turns `yourHits` and `enemyHits` never exceed `totalHits` (the sum 3 + 4 = 7
of the ship lengths); the instant either counter equals the total the loop
guard fails and no further turn changes the state; and the closing banner
reports a win exactly when `yourHits` equals the total, a loss otherwise. -/
theorem runGame_counters (g0 : GameState) (inps : List TurnInput)
    (h0y : g0.yourHits = 0) (h0e : g0.enemyHits = 0) :
    (runGame g0 inps).yourHits ≤ totalHits ∧
    (runGame g0 inps).enemyHits ≤ totalHits ∧
    (∀ inp, ((runGame g0 inps).yourHits = totalHits ∨
        (runGame g0 inps).enemyHits = totalHits) →
      stepGame (runGame g0 inps) inp = runGame g0 inps) ∧
    (reportsWin (runGame g0 inps) = true ↔
      (runGame g0 inps).yourHits = totalHits) := by
  have haux : ∀ (is : List TurnInput) (g : GameState),
      g.yourHits ≤ totalHits → g.enemyHits ≤ totalHits →
      (runGame g is).yourHits ≤ totalHits ∧
      (runGame g is).enemyHits ≤ totalHits := by
    intro is
    induction is with
    | nil => exact fun g hy he => ⟨hy, he⟩
    | cons i is ih =>
      intro g hy he
      have hstep := stepGame_counter_le g i hy he
      exact ih (stepGame g i) hstep.1 hstep.2
  have hb := haux inps g0 (by omega) (by omega)
  refine ⟨hb.1, hb.2, ?_, ?_⟩
  · intro inp hend
    unfold stepGame
    rw [if_pos hend]
  · unfold reportsWin
    simp

/-- Witness for C8: after the concrete thirteen-turn match `yourHits`
reaches the total, a further turn leaves the state unchanged, and the
counter never exceeded the total. -/
theorem runGame_counters_witness :
    stepGame (runGame matchStart winTrace) fireShot
        = runGame matchStart winTrace ∧
    (runGame matchStart winTrace).yourHits ≤ totalHits := by
  have h := runGame_counters matchStart winTrace rfl rfl
  exact ⟨h.2.2.1 fireShot (Or.inl (by decide)), h.1⟩

